import Mathlib

/-!
Verification of the nuwa mask-propagation / camera-normalization core.

Shallow embedding of `src/nuwa/utils/pose_utils.py` and
`src/nuwa/data/db.py` (class `NuwaDB`).  Python `assert` failures,
`AttributeError` on a `None` dereference, `ValueError` from empty-array
reductions and `IndexError` from out-of-range indexing are modelled with
the explicit error type `NuwaError`.  Exact pixel / camera arithmetic is
modelled over `ℚ` (pose utilities, bounding boxes) and over `ℝ`
(camera normalization, whose Euclidean norms need square roots).
-/

/-- Python exception kinds raised by the embedded code paths. -/
inductive NuwaError where
  | assertionError
  | attributeError
  | valueError
  | indexError
deriving DecidableEq

/-! ## pose_utils.py -/

/-- The fixed sign-flip matrix `diag(1,-1,-1,1)` from
`convert_camera_pose` (pose_utils.py lines 18-25). -/
def flipYZ : Matrix (Fin 4) (Fin 4) ℚ :=
  !![1, 0, 0, 0;
     0, -1, 0, 0;
     0, 0, -1, 0;
     0, 0, 0, 1]

/-- `accepted_types` from pose_utils.py line 5. -/
def accepted_types : List String := ["cv", "gl", "blender"]

/-- The `"blender" → "gl"` renaming performed on both arguments of
`convert_camera_pose` (pose_utils.py lines 10-13). -/
def normalizeConvention (t : String) : String :=
  if t = "blender" then "gl" else t

/-- `convert_camera_pose` (pose_utils.py lines 4-25).  The two
`assert`s become `.error .assertionError`. -/
def convert_camera_pose (pose : Matrix (Fin 4) (Fin 4) ℚ)
    (in_type out_type : String) :
    Except NuwaError (Matrix (Fin 4) (Fin 4) ℚ) :=
  if in_type ∉ accepted_types then .error .assertionError
  else if out_type ∉ accepted_types then .error .assertionError
  else
    let in1 := normalizeConvention in_type
    let out1 := normalizeConvention out_type
    if in1 = out1 then .ok pose
    else .ok (pose * flipYZ)

/-- The fixed permutation/reflection matrix right-multiplied onto the
pose by `get_rot90_camera_matrices` (pose_utils.py lines 58-61). -/
def rot90M : Matrix (Fin 4) (Fin 4) ℚ :=
  !![0, 1, 0, 0;
     -1, 0, 0, 0;
     0, 0, 1, 0;
     0, 0, 0, 1]

/-- `get_rot90_camera_matrices` (pose_utils.py lines 46-67):
returns `(new_pose_matrix, nfx, nfy, ncx, ncy)`. -/
def get_rot90_camera_matrices (pose : Matrix (Fin 4) (Fin 4) ℚ)
    (fx fy cx cy h : ℚ) :
    Matrix (Fin 4) (Fin 4) ℚ × ℚ × ℚ × ℚ × ℚ :=
  (pose * rot90M, fy, fx, h - cy, cx)

lemma flipYZ_mul_flipYZ : flipYZ * flipYZ = 1 := by
  ext i j
  fin_cases i <;> fin_cases j <;>
    simp [flipYZ, Matrix.mul_apply, Fin.sum_univ_four, Matrix.one_apply,
      Matrix.vecHead, Matrix.vecTail]

lemma rot90M_four : rot90M * (rot90M * (rot90M * rot90M)) = 1 := by
  ext i j
  fin_cases i <;> fin_cases j <;>
    simp [rot90M, Matrix.mul_apply, Fin.sum_univ_four, Matrix.one_apply,
      Matrix.vecHead, Matrix.vecTail]

/-- C6: `convert_camera_pose(convert_camera_pose(P,"cv","gl"),"gl","cv") = P`
for every pose `P`; the pose is returned unchanged whenever the two
conventions agree after mapping `"blender"` to `"gl"` (and both are
accepted); and the cv→gl and gl→cv conversions both right-multiply by
the same matrix `diag(1,-1,-1,1)`. -/
theorem convert_camera_pose_spec (P : Matrix (Fin 4) (Fin 4) ℚ) :
    ((convert_camera_pose P "cv" "gl").bind
        (fun Q => convert_camera_pose Q "gl" "cv")) = .ok P ∧
    convert_camera_pose P "cv" "gl" = .ok (P * flipYZ) ∧
    convert_camera_pose P "gl" "cv" = .ok (P * flipYZ) ∧
    (∀ a b, a ∈ accepted_types → b ∈ accepted_types →
      normalizeConvention a = normalizeConvention b →
      convert_camera_pose P a b = .ok P) := by
  have hround : P * flipYZ * flipYZ = P := by
    rw [mul_assoc, flipYZ_mul_flipYZ, mul_one]
  refine ⟨?_, ?_, ?_, ?_⟩
  · simp [convert_camera_pose, accepted_types, normalizeConvention,
      Except.bind, hround]
  · simp [convert_camera_pose, accepted_types, normalizeConvention]
  · simp [convert_camera_pose, accepted_types, normalizeConvention]
  · intro a b ha hb hab
    simp only [convert_camera_pose, ha, hb, hab]
    simp

/-- Witness for C6: concrete instance of the hypothesis-bearing part,
with `a = "blender"` and `b = "gl"`. -/
theorem convert_camera_pose_spec_witness :
    ("blender" ∈ accepted_types ∧ "gl" ∈ accepted_types ∧
      normalizeConvention "blender" = normalizeConvention "gl") ∧
    convert_camera_pose (1 : Matrix (Fin 4) (Fin 4) ℚ) "blender" "gl" =
      .ok 1 :=
  ⟨⟨by decide, by decide, by decide⟩,
    (convert_camera_pose_spec 1).2.2.2 "blender" "gl"
      (by decide) (by decide) (by decide)⟩

/-- C7: applying `get_rot90_camera_matrices` four times — feeding each
application the previous outputs and the current image height, which
alternates `h, w, h, w` as the image dimensions swap — returns the
original pose and the original intrinsics. -/
theorem rot90_four_applications (pose : Matrix (Fin 4) (Fin 4) ℚ)
    (fx fy cx cy h w : ℚ) :
    (let s1 := get_rot90_camera_matrices pose fx fy cx cy h
     let s2 := get_rot90_camera_matrices s1.1 s1.2.1 s1.2.2.1
       s1.2.2.2.1 s1.2.2.2.2 w
     let s3 := get_rot90_camera_matrices s2.1 s2.2.1 s2.2.2.1
       s2.2.2.2.1 s2.2.2.2.2 h
     let s4 := get_rot90_camera_matrices s3.1 s3.2.1 s3.2.2.1
       s3.2.2.2.1 s3.2.2.2.2 w
     s4 = (pose, fx, fy, cx, cy)) := by
  simp only [get_rot90_camera_matrices, Prod.mk.injEq]
  refine ⟨?_, trivial, trivial, by ring, by ring⟩
  rw [mul_assoc, mul_assoc, mul_assoc, rot90M_four, mul_one]

/-- C9: `get_rot90_camera_matrices` changes only the first two columns
of the pose: the returned pose keeps the input pose's third column
(viewing axis) and fourth column (camera center). -/
theorem rot90_preserves_axis_and_center (pose : Matrix (Fin 4) (Fin 4) ℚ)
    (fx fy cx cy h : ℚ) (i : Fin 4) :
    (get_rot90_camera_matrices pose fx fy cx cy h).1 i 2 = pose i 2 ∧
    (get_rot90_camera_matrices pose fx fy cx cy h).1 i 3 = pose i 3 := by
  constructor <;>
    simp [get_rot90_camera_matrices, rot90M, Matrix.mul_apply,
      Fin.sum_univ_four, Matrix.vecHead, Matrix.vecTail]

/-! ## db.py, mask propagation: the flow-warped bounding-box step
(`NuwaDB.calculate_object_mask`, lines 123-139) -/

/-- Python `int()`: truncation of a rational toward zero. -/
def truncQ (q : ℚ) : ℤ := if 0 ≤ q then ⌊q⌋ else -⌊-q⌋

/-- db.py lines 126-129: the nonzero pixel coordinates `(x, y)` of the
downsampled previous mask, each displaced by its local flow vector
`flow[y, x]` (a `(dx, dy)` pair). -/
def warpedPoints (coords : List (ℕ × ℕ)) (flow : ℕ × ℕ → ℚ × ℚ) :
    List (ℚ × ℚ) :=
  coords.map (fun c => ((c.1 : ℚ) + (flow c).1, (c.2 : ℚ) + (flow c).2))

/-- A zero-displacement (identity) flow field. -/
def zeroFlow : ℕ × ℕ → ℚ × ℚ := fun _ => (0, 0)

/-- The nonzero coordinates of a full-image foreground mask of width
`w` and height `h`, in numpy row-major `nonzero` order. -/
def fullMaskCoords (w h : ℕ) : List (ℕ × ℕ) :=
  (List.range h).flatMap (fun y => (List.range w).map (fun x => (x, y)))

/-- db.py lines 130-138: min/max reductions over the warped foreground
pixels (a `ValueError` on an empty array), outward expansion by the
`shrink` fraction of the box extent per side with `int()` truncation,
and rescaling of the box `(xmin, ymin, xmax, ymax)` by the reduce
factor.  No clipping of any kind is performed. -/
def computeBBox (pts : List (ℚ × ℚ)) (shrink : ℚ) (reduce_factor : ℤ) :
    Except NuwaError (ℤ × ℤ × ℤ × ℤ) :=
  match (pts.map Prod.fst).min?, (pts.map Prod.fst).max?,
      (pts.map Prod.snd).min?, (pts.map Prod.snd).max? with
  | some xmin, some xmax, some ymin, some ymax =>
    let w := xmax - xmin
    let h := ymax - ymin
    .ok (truncQ (xmin - w * shrink) * reduce_factor,
         truncQ (ymin - h * shrink) * reduce_factor,
         truncQ (xmax + w * shrink) * reduce_factor,
         truncQ (ymax + h * shrink) * reduce_factor)
  | _, _, _, _ => .error .valueError

lemma list_min?_eq_some_of {α : Type} [LinearOrder α] {l : List α} {a : α}
    (ha : a ∈ l) (hb : ∀ b ∈ l, a ≤ b) : l.min? = some a := by
  have anti : Std.Antisymm (fun x y : α => x ≤ y) :=
    ⟨fun h h2 => le_antisymm h h2⟩
  exact (@List.min?_eq_some_iff α a _ _ anti (fun _ => le_refl _)
    (fun a b => min_choice a b) (fun _ _ _ => le_min_iff) l).mpr ⟨ha, hb⟩

lemma list_max?_eq_some_of {α : Type} [LinearOrder α] {l : List α} {a : α}
    (ha : a ∈ l) (hb : ∀ b ∈ l, b ≤ a) : l.max? = some a := by
  have anti : Std.Antisymm (fun x y : α => x ≤ y) :=
    ⟨fun h h2 => le_antisymm h h2⟩
  exact (@List.max?_eq_some_iff α a _ _ anti (fun _ => le_refl _)
    (fun a b => max_choice a b) (fun _ _ _ => max_le_iff) l).mpr ⟨ha, hb⟩

lemma warpedPoints_fullMask_zeroFlow (w h : ℕ) :
    warpedPoints (fullMaskCoords w h) zeroFlow =
      (fullMaskCoords w h).map (fun c => ((c.1 : ℚ), (c.2 : ℚ))) := by
  simp [warpedPoints, zeroFlow]

lemma mem_fullMaskCoords {w h : ℕ} {p : ℕ × ℕ} :
    p ∈ fullMaskCoords w h ↔ p.1 < w ∧ p.2 < h := by
  cases p with
  | mk x y =>
    simp only [fullMaskCoords, List.mem_flatMap, List.mem_map,
      List.mem_range]
    constructor
    · rintro ⟨y', hy', x', hx', he⟩
      obtain ⟨rfl, rfl⟩ := Prod.mk.injEq .. ▸ he
      exact ⟨hx', hy'⟩
    · rintro ⟨hx, hy⟩
      exact ⟨y, hy, x, hx, rfl⟩

lemma fullMask_xs_min? {w h : ℕ} (hw : 1 ≤ w) (hh : 1 ≤ h) :
    ((warpedPoints (fullMaskCoords w h) zeroFlow).map Prod.fst).min? =
      some 0 := by
  rw [warpedPoints_fullMask_zeroFlow, List.map_map]
  refine list_min?_eq_some_of ?_ ?_
  · refine List.mem_map.mpr ⟨(0, 0), mem_fullMaskCoords.mpr ⟨hw, hh⟩, rfl⟩
  · rintro b hb
    obtain ⟨c, _, rfl⟩ := List.mem_map.mp hb
    exact Nat.cast_nonneg _

lemma fullMask_ys_min? {w h : ℕ} (hw : 1 ≤ w) (hh : 1 ≤ h) :
    ((warpedPoints (fullMaskCoords w h) zeroFlow).map Prod.snd).min? =
      some 0 := by
  rw [warpedPoints_fullMask_zeroFlow, List.map_map]
  refine list_min?_eq_some_of ?_ ?_
  · refine List.mem_map.mpr ⟨(0, 0), mem_fullMaskCoords.mpr ⟨hw, hh⟩, rfl⟩
  · rintro b hb
    obtain ⟨c, _, rfl⟩ := List.mem_map.mp hb
    exact Nat.cast_nonneg _

lemma fullMask_xs_max? {w h : ℕ} (hw : 1 ≤ w) (hh : 1 ≤ h) :
    ((warpedPoints (fullMaskCoords w h) zeroFlow).map Prod.fst).max? =
      some ((w : ℚ) - 1) := by
  rw [warpedPoints_fullMask_zeroFlow, List.map_map]
  refine list_max?_eq_some_of ?_ ?_
  · refine List.mem_map.mpr ⟨(w - 1, 0),
      mem_fullMaskCoords.mpr ⟨by omega, hh⟩, ?_⟩
    simp only [Function.comp]
    push_cast [Nat.cast_sub hw]
    ring
  · rintro b hb
    obtain ⟨c, hc, rfl⟩ := List.mem_map.mp hb
    have hx : c.1 < w := (mem_fullMaskCoords.mp hc).1
    have : (c.1 : ℚ) + 1 ≤ (w : ℚ) := by exact_mod_cast hx
    simp only [Function.comp]
    linarith

lemma fullMask_ys_max? {w h : ℕ} (hw : 1 ≤ w) (hh : 1 ≤ h) :
    ((warpedPoints (fullMaskCoords w h) zeroFlow).map Prod.snd).max? =
      some ((h : ℚ) - 1) := by
  rw [warpedPoints_fullMask_zeroFlow, List.map_map]
  refine list_max?_eq_some_of ?_ ?_
  · refine List.mem_map.mpr ⟨(0, h - 1),
      mem_fullMaskCoords.mpr ⟨hw, by omega⟩, ?_⟩
    simp only [Function.comp]
    push_cast [Nat.cast_sub hh]
    ring
  · rintro b hb
    obtain ⟨c, hc, rfl⟩ := List.mem_map.mp hb
    have hy : c.2 < h := (mem_fullMaskCoords.mp hc).2
    have : (c.2 : ℚ) + 1 ≤ (h : ℚ) := by exact_mod_cast hy
    simp only [Function.comp]
    linarith

/-- C1 (amended): for a full-image previous mask and an identity flow
field, the box handed to the segmentation oracle is the bounding box
`(0, 0, w-1, h-1)` of the downsampled grid, expanded outward by the
`shrink` fraction of its extent per side with `int()` truncation and
rescaled by the reduce factor — with no clipping to image bounds. -/
theorem bbox_full_grid (w h : ℕ) (hw : 1 ≤ w) (hh : 1 ≤ h)
    (shrink : ℚ) (r : ℤ) :
    computeBBox (warpedPoints (fullMaskCoords w h) zeroFlow) shrink r =
      .ok (truncQ (0 - ((w : ℚ) - 1 - 0) * shrink) * r,
           truncQ (0 - ((h : ℚ) - 1 - 0) * shrink) * r,
           truncQ (((w : ℚ) - 1) + ((w : ℚ) - 1 - 0) * shrink) * r,
           truncQ (((h : ℚ) - 1) + ((h : ℚ) - 1 - 0) * shrink) * r) := by
  rw [computeBBox, fullMask_xs_min? hw hh, fullMask_xs_max? hw hh,
    fullMask_ys_min? hw hh, fullMask_ys_max? hw hh]

/-- Witness for C1 (amended) at `w = h = 2`, `shrink = 1/50`,
`reduce = 2`. -/
theorem bbox_full_grid_witness :
    computeBBox (warpedPoints (fullMaskCoords 2 2) zeroFlow) (1/50) 2 =
      .ok (truncQ (0 - (((2:ℕ) : ℚ) - 1 - 0) * (1/50)) * 2,
           truncQ (0 - (((2:ℕ) : ℚ) - 1 - 0) * (1/50)) * 2,
           truncQ ((((2:ℕ) : ℚ) - 1) + (((2:ℕ) : ℚ) - 1 - 0) * (1/50)) * 2,
           truncQ ((((2:ℕ) : ℚ) - 1) + (((2:ℕ) : ℚ) - 1 - 0) * (1/50)) * 2) :=
  bbox_full_grid 2 2 (by norm_num) (by norm_num) (1/50) 2

/-- Counterexample to C1 as stated: for a 4×4 image, reduce factor 2
(downsampled grid 2×2), identity flow, full-image previous mask and the
default `shrink = 0.02`, the box passed to the oracle is
`(0, 0, 2, 2)` — not the full-image rectangle (neither `(0,0,4,4)` nor
`(0,0,3,3)`).  Moreover no clipping to image bounds happens at all: a
two-pixel mask `{(0,0), (4,4)}` on the 5×5 downsampled grid of a 10×10
image with `shrink = 1/2` yields the box `(-4, -4, 12, 12)`, which is
passed to the oracle although it extends well outside the image. -/
theorem bbox_scenario_not_full_image :
    (computeBBox (warpedPoints (fullMaskCoords 2 2) zeroFlow) (2/100) 2 =
      .ok (0, 0, 2, 2) ∧
    ((0 : ℤ), (0 : ℤ), (2 : ℤ), (2 : ℤ)) ≠ ((0 : ℤ), 0, 4, 4) ∧
    ((0 : ℤ), (0 : ℤ), (2 : ℤ), (2 : ℤ)) ≠ ((0 : ℤ), 0, 3, 3)) ∧
    computeBBox (warpedPoints [(0, 0), (4, 4)] zeroFlow) (1/2) 2 =
      .ok (-4, -4, 12, 12) := by
  refine ⟨⟨?_, by decide, by decide⟩, ?_⟩
  · rw [computeBBox, fullMask_xs_min? (by norm_num) (by norm_num),
      fullMask_xs_max? (by norm_num) (by norm_num),
      fullMask_ys_min? (by norm_num) (by norm_num),
      fullMask_ys_max? (by norm_num) (by norm_num)]
    norm_num [truncQ]
  · norm_num [computeBBox, warpedPoints, zeroFlow, List.min?_cons',
      List.max?_cons', min_def, max_def, truncQ]

/-- C10: the bounding-box step raises (`ValueError` from a min/max
reduction over an empty array) when the downsampled previous mask has
no foreground pixel, and succeeds whenever it has at least one; there
is no full-image fallback in this step. -/
theorem bbox_nonempty_foreground_spec :
    (∀ flow shrink r, computeBBox (warpedPoints [] flow) shrink r =
      .error .valueError) ∧
    (∀ coords flow shrink r, coords ≠ ([] : List (ℕ × ℕ)) →
      ∃ b, computeBBox (warpedPoints coords flow) shrink r = .ok b) := by
  constructor
  · intro flow shrink r
    rfl
  · intro coords flow shrink r hne
    obtain ⟨c, cs, rfl⟩ := List.exists_cons_of_ne_nil hne
    exact ⟨_, rfl⟩

/-- Witness for C10 at the one-pixel mask `[(0, 0)]`. -/
theorem bbox_nonempty_foreground_witness :
    ([((0:ℕ), (0:ℕ))] ≠ ([] : List (ℕ × ℕ))) ∧
    ∃ b, computeBBox (warpedPoints [((0:ℕ), (0:ℕ))] zeroFlow) (2/100) 2 =
      .ok b :=
  ⟨by decide,
    bbox_nonempty_foreground_spec.2 [(0, 0)] zeroFlow (2/100) 2 (by decide)⟩

/-! ## db.py, mask propagation: largest-connected-component cleanup
(`NuwaDB.calculate_object_mask`, lines 140-145).  Connected-component
labeling itself is the external `cv2.connectedComponentsWithStats`
oracle (spec §6): its label image and per-label pixel counts (`stats`
column 4, row 0 being the background) are inputs here. -/

/-- `np.argmax` over a list together with the maximal value: `none` on
an empty list (numpy raises `ValueError` there), otherwise the first
index attaining the maximum, ties broken by the earliest index. -/
def argmaxAux : List ℕ → Option (ℕ × ℕ)
  | [] => none
  | a :: as =>
    match argmaxAux as with
    | none => some (0, a)
    | some (j, v) => if a < v then some (j + 1, v) else some (0, a)

/-- `np.argmax(stats[1:, 4])` as an index into the tail list. -/
def idxOfMax (l : List ℕ) : Option ℕ := (argmaxAux l).map Prod.fst

/-- db.py lines 141-145: `maxcomp = np.argmax(stats[1:, 4]) + 1;
mask = (labels == maxcomp)`, with the `ValueError` on an empty
non-background slice caught and replaced by `np.ones_like(mask)`
(an all-foreground mask of the same shape). -/
def cleanupMask (labels : ℕ × ℕ → ℕ) (areas : List ℕ) : ℕ × ℕ → Bool :=
  match idxOfMax (areas.drop 1) with
  | some j => fun p => decide (labels p = j + 1)
  | none => fun _ => true

/-- Spec-side predicate: `j` is the first index of `l` attaining the
maximum value (every entry is `≤ l[j]`, every earlier entry `< l[j]`). -/
def isFirstMax (l : List ℕ) (j : ℕ) : Prop :=
  j < l.length ∧ (∀ k < l.length, l.getD k 0 ≤ l.getD j 0) ∧
  ∀ k < j, l.getD k 0 < l.getD j 0

lemma argmaxAux_eq_none {l : List ℕ} (h : argmaxAux l = none) : l = [] := by
  cases l with
  | nil => rfl
  | cons b bs =>
    rw [argmaxAux] at h
    cases hm : argmaxAux bs <;> rw [hm] at h <;> dsimp only at h
    · exact absurd h (by simp)
    · split at h <;> simp at h

lemma argmaxAux_spec :
    ∀ (l : List ℕ) (j v : ℕ), argmaxAux l = some (j, v) →
      v = l.getD j 0 ∧ isFirstMax l j := by
  intro l
  induction l with
  | nil => intro j v h; simp [argmaxAux] at h
  | cons a as ih =>
    intro j v h
    rw [argmaxAux] at h
    cases hm : argmaxAux as with
    | none =>
      rw [hm] at h; dsimp only at h
      obtain ⟨rfl, rfl⟩ := Prod.mk.inj (Option.some.inj h)
      have hnil : as = [] := argmaxAux_eq_none hm
      subst hnil
      refine ⟨rfl, by simp [isFirstMax], ?_, ?_⟩
      · intro k hk
        simp only [List.length_cons, List.length_nil] at hk
        have hk0 : k = 0 := by omega
        subst hk0
        exact le_refl _
      · intro k hk
        exact absurd hk (Nat.not_lt_zero k)
    | some p =>
      obtain ⟨j', v'⟩ := p
      obtain ⟨hv', hlt', hle', hstrict'⟩ :
          v' = as.getD j' 0 ∧ j' < as.length ∧
          (∀ k < as.length, as.getD k 0 ≤ as.getD j' 0) ∧
          ∀ k < j', as.getD k 0 < as.getD j' 0 := by
        obtain ⟨h1, h2, h3, h4⟩ := ih j' v' hm
        exact ⟨h1, h2, h3, h4⟩
      rw [hm] at h; dsimp only at h
      by_cases hc : a < v'
      · rw [if_pos hc] at h
        obtain ⟨rfl, rfl⟩ := Prod.mk.inj (Option.some.inj h)
        refine ⟨by simp [List.getD_cons_succ, hv'], ?_, ?_, ?_⟩
        · simpa using Nat.succ_lt_succ hlt'
        · intro k hk
          cases k with
          | zero =>
            simp only [List.getD_cons_zero, List.getD_cons_succ]
            exact le_of_lt (hv' ▸ hc)
          | succ k =>
            simp only [List.getD_cons_succ]
            exact hle' k (by simpa using hk)
        · intro k hk
          cases k with
          | zero =>
            simp only [List.getD_cons_zero, List.getD_cons_succ]
            exact hv' ▸ hc
          | succ k =>
            simp only [List.getD_cons_succ]
            exact hstrict' k (by omega)
      · rw [if_neg hc] at h
        obtain ⟨rfl, rfl⟩ := Prod.mk.inj (Option.some.inj h)
        push_neg at hc
        refine ⟨by simp, by simp, ?_, ?_⟩
        · intro k hk
          cases k with
          | zero => simp
          | succ k =>
            simp only [List.getD_cons_succ, List.getD_cons_zero]
            exact le_trans (hle' k (by simpa using hk)) (hv' ▸ hc)
        · intro k hk
          exact absurd hk (Nat.not_lt_zero k)

lemma argmaxAux_isSome_of_ne_nil {l : List ℕ} (h : l ≠ []) :
    ∃ j v, argmaxAux l = some (j, v) := by
  cases l with
  | nil => exact absurd rfl h
  | cons a as =>
    rw [argmaxAux]
    cases argmaxAux as with
    | none => exact ⟨0, a, rfl⟩
    | some p =>
      by_cases hc : a < p.2
      · exact ⟨p.1 + 1, p.2, by simp [hc]⟩
      · exact ⟨0, a, by simp [hc]⟩

/-- C5: if the connected-component pass yields no non-background
component, the frame's mask falls back to an all-foreground full-image
mask; otherwise it is exactly the pixel set of the largest
non-background component, ties broken by first-encountered label
order. -/
theorem cleanup_largest_component_spec (labels : ℕ × ℕ → ℕ)
    (areas : List ℕ) :
    (areas.drop 1 = [] → cleanupMask labels areas = fun _ => true) ∧
    (areas.drop 1 ≠ [] →
      ∃ j, isFirstMax (areas.drop 1) j ∧
        cleanupMask labels areas = fun p => decide (labels p = j + 1)) := by
  constructor
  · intro h
    rw [cleanupMask, idxOfMax, h]
    rfl
  · intro h
    obtain ⟨j, v, hjv⟩ := argmaxAux_isSome_of_ne_nil h
    refine ⟨j, (argmaxAux_spec _ j v hjv).2, ?_⟩
    rw [cleanupMask, idxOfMax, hjv]
    rfl

/-- Witness for C5: component areas `[10, 3, 5, 5]` (background 10,
then components of sizes 3, 5, 5). -/
theorem cleanup_largest_component_witness :
    (([10, 3, 5, 5] : List ℕ).drop 1 ≠ []) ∧
    ∃ j, isFirstMax (([10, 3, 5, 5] : List ℕ).drop 1) j ∧
      cleanupMask (fun p => p.1) [10, 3, 5, 5] =
        fun p => decide ((fun p : ℕ × ℕ => p.1) p = j + 1) :=
  ⟨by decide,
    (cleanup_largest_component_spec (fun p => p.1) [10, 3, 5, 5]).2
      (by decide)⟩

/-! ## db.py: the `NuwaDB` data model and `normalize_cameras`
(lines 201-220).  Camera centers live in the `[:3, 3]` block of each
4×4 camera-to-world pose.  Norms need square roots, so this part of the
embedding is over `ℝ`. -/

/-- Camera intrinsics.  Modelled from the spec: the `Camera` class
(`nuwa.data.frame`) is not under src/; its fields are the ones db.py
reads and writes (`model` tag, `w`, `h`, `fx`, `fy`, `cx`, `cy`;
spec §3). -/
structure Camera where
  model : String
  w : ℕ
  h : ℕ
  fx : ℝ
  fy : ℝ
  cx : ℝ
  cy : ℝ

/-- One frame.  Modelled from the spec: the `Frame` class
(`nuwa.data.frame`) is not under src/; the fields are those db.py
touches (spec §3). -/
structure Frame where
  pose : Matrix (Fin 4) (Fin 4) ℝ
  camera : Camera
  image_path : String
  org_path : String
  mask_path : Option String

/-- Sparse reconstruction.  Modelled from the spec: `nuwa.data.colmap.
Reconstruction` is not under src/; spec §4.2 treats `world_translate`
as a world-space translation of the reconstruction and `world_scale`
as a uniform scaling, so it is modelled by its world-point set. -/
structure Reconstruction where
  points : List (Fin 3 → ℝ)

/-- Modelled from the spec: world-space translation of the sparse
reconstruction (spec §4.2 step 4). -/
def world_translate (r : Reconstruction) (t : Fin 3 → ℝ) : Reconstruction :=
  ⟨r.points.map (fun p i => p i + t i)⟩

/-- Modelled from the spec: uniform world-space scaling of the sparse
reconstruction (spec §4.2 step 5). -/
def world_scale (r : Reconstruction) (s : ℝ) : Reconstruction :=
  ⟨r.points.map (fun p i => s * p i)⟩

/-- The `NuwaDB` container (db.py lines 15-19): frame list plus an
optional sparse reconstruction (`colmap_reconstruction = None` when
absent). -/
structure NuwaDB where
  source : String
  frames : List Frame
  colmap_reconstruction : Option Reconstruction

/-- `pose[:3, 3]`: the camera center stored in a pose. -/
def centerOf (p : Matrix (Fin 4) (Fin 4) ℝ) : Fin 3 → ℝ :=
  fun i => p i.castSucc 3

/-- db.py line 204-205: the stacked `camera_poses[:, :3, 3]`. -/
def centersOf (db : NuwaDB) : List (Fin 3 → ℝ) :=
  db.frames.map (fun f => centerOf f.pose)

/-- One coordinate column of the stacked camera centers. -/
def compList (db : NuwaDB) (i : Fin 3) : List ℝ :=
  (centersOf db).map (fun c => c i)

/-- db.py lines 205-211: componentwise min/max of the camera centers
and the `offset` vector (`[..., zm]` when `positive_z` else the full
midrange). -/
noncomputable def offsetOf (db : NuwaDB) (positive_z : Bool) : Fin 3 → ℝ :=
  let xm := (compList db 0).min?.getD 0
  let xM := (compList db 0).max?.getD 0
  let ym := (compList db 1).min?.getD 0
  let yM := (compList db 1).max?.getD 0
  let zm := (compList db 2).min?.getD 0
  let zM := (compList db 2).max?.getD 0
  if positive_z then ![(xm + xM) / 2, (ym + yM) / 2, zm]
  else ![(xm + xM) / 2, (ym + yM) / 2, (zm + zM) / 2]

/-- db.py line 212: `camera_poses[:, :3, 3] -= offset`. -/
noncomputable def centeredCenters (db : NuwaDB) (positive_z : Bool) :
    List (Fin 3 → ℝ) :=
  (centersOf db).map (fun c i => c i - offsetOf db positive_z i)

/-- `np.linalg.norm` of one center (Euclidean). -/
noncomputable def normE (c : Fin 3 → ℝ) : ℝ :=
  Real.sqrt (c 0 ^ 2 + c 1 ^ 2 + c 2 ^ 2)

/-- db.py line 215, the denominator:
`np.linalg.norm(camera_poses[:, :3, 3], axis=-1).max()`. -/
noncomputable def maxCenteredNorm (db : NuwaDB) (positive_z : Bool) : ℝ :=
  ((centeredCenters db positive_z).map normE).max?.getD 0

/-- db.py line 215: `scale = scale_factor / max_norm`.  No guard: with
a zero max-norm numpy performs the float division anyway. -/
noncomputable def scaleOf (db : NuwaDB) (positive_z : Bool)
    (scale_factor : ℝ) : ℝ :=
  scale_factor / maxCenteredNorm db positive_z

/-- db.py line 216: `camera_poses[:, :3, 3] *= scale`. -/
noncomputable def newCenters (db : NuwaDB) (positive_z : Bool)
    (scale_factor : ℝ) : List (Fin 3 → ℝ) :=
  (centeredCenters db positive_z).map
    (fun c i => scaleOf db positive_z scale_factor * c i)

/-- Write a center back into the `[:3, 3]` block of a pose. -/
def setCenter (p : Matrix (Fin 4) (Fin 4) ℝ) (c : Fin 3 → ℝ) :
    Matrix (Fin 4) (Fin 4) ℝ :=
  Matrix.of fun i j =>
    if h3 : j = 3 ∧ (i : ℕ) < 3 then c ⟨(i : ℕ), h3.2⟩ else p i j

/-- `NuwaDB.normalize_cameras` (db.py lines 201-220).  Stacking the
poses of an empty frame list makes the numpy slice on line 205 raise
(`IndexError`); `self.colmap_reconstruction.world_translate` on line
213 raises `AttributeError` when no reconstruction is attached;
otherwise the function never fails — in particular there is no guard
on the zero max-norm division of line 215. -/
noncomputable def normalize_cameras (db : NuwaDB) (positive_z : Bool)
    (scale_factor : ℝ) : Except NuwaError NuwaDB :=
  if db.frames.isEmpty then .error .indexError
  else
    match db.colmap_reconstruction with
    | none => .error .attributeError
    | some r0 =>
      let r1 := world_translate r0 (fun i => -(offsetOf db positive_z i))
      let r2 := world_scale r1 (scaleOf db positive_z scale_factor)
      .ok { db with
        frames := List.zipWith
          (fun f c => { f with pose := setCenter f.pose c })
          db.frames (newCenters db positive_z scale_factor),
        colmap_reconstruction := some r2 }

/-- A pose whose rotation block is the identity and whose center is
`(x, y, z)`. -/
def poseWithCenter (x y z : ℝ) : Matrix (Fin 4) (Fin 4) ℝ :=
  !![1, 0, 0, x;
     0, 1, 0, y;
     0, 0, 1, z;
     0, 0, 0, 1]

lemma centerOf_poseWithCenter (x y z : ℝ) :
    centerOf (poseWithCenter x y z) = ![x, y, z] := by
  funext i
  fin_cases i <;>
    simp [centerOf, poseWithCenter, Matrix.vecHead, Matrix.vecTail,
      Fin.castSucc, Fin.castAdd, Fin.castLE]

/-- A pinhole camera record used by the concrete datasets below. -/
def pinholeCam : Camera := ⟨"PINHOLE", 4, 4, 1, 1, 2, 2⟩

/-- A frame with an identity-rotation pose centered at `(x, y, z)`. -/
def frameAt (x y z : ℝ) (cam : Camera) (path : String) : Frame :=
  ⟨poseWithCenter x y z, cam, path, path, none⟩

/-- Concrete dataset for C8: two frames with distinct centers and no
attached sparse reconstruction (`colmap_reconstruction = None`). -/
def dbNoRecon : NuwaDB :=
  ⟨"test", [frameAt 0 0 0 pinholeCam "img0.png",
            frameAt 10 0 0 pinholeCam "img1.png"], none⟩

/-- C8 (code bug): `normalize_cameras` on a dataset without an attached
sparse reconstruction dereferences `self.colmap_reconstruction`
unconditionally (db.py line 213) and raises `AttributeError` instead of
succeeding and skipping the reconstruction update. -/
theorem normalize_cameras_none_recon_raises :
    normalize_cameras dbNoRecon true 1 = .error .attributeError := by
  rw [normalize_cameras]
  simp [dbNoRecon]

/-- Concrete dataset for C3: a single frame (all camera centers
trivially coincide), reconstruction attached. -/
def dbSingleFrame : NuwaDB :=
  ⟨"test", [frameAt 1 2 3 pinholeCam "img0.png"], some ⟨[]⟩⟩

lemma centersOf_dbSingleFrame : centersOf dbSingleFrame = [![1, 2, 3]] := by
  simp [centersOf, dbSingleFrame, frameAt, centerOf_poseWithCenter]

lemma offsetOf_dbSingleFrame : offsetOf dbSingleFrame true = ![1, 2, 3] := by
  funext i
  have h0 : compList dbSingleFrame 0 = [1] := by
    simp [compList, centersOf_dbSingleFrame]
  have h1 : compList dbSingleFrame 1 = [2] := by
    simp [compList, centersOf_dbSingleFrame]
  have h2 : compList dbSingleFrame 2 = [3] := by
    simp [compList, centersOf_dbSingleFrame]
  fin_cases i <;>
    simp [offsetOf, h0, h1, h2, List.min?_cons', List.max?_cons']

lemma centeredCenters_dbSingleFrame :
    centeredCenters dbSingleFrame true = [![0, 0, 0]] := by
  rw [centeredCenters, centersOf_dbSingleFrame]
  simp only [List.map_cons, List.map_nil, List.cons.injEq, and_true]
  funext i
  rw [offsetOf_dbSingleFrame]
  fin_cases i <;> simp

/-- C3 (code bug): on a degenerate dataset (single frame, so the
maximum centered-center norm is zero) `normalize_cameras` does not fail
at all — no `DegenerateInput`-style guard exists; the scale denominator
of db.py line 215 is exactly zero and numpy divides by it regardless. -/
theorem normalize_cameras_degenerate_no_guard :
    (normalize_cameras dbSingleFrame true (11/10)).isOk = true ∧
    maxCenteredNorm dbSingleFrame true = 0 := by
  constructor
  · rw [normalize_cameras]
    simp [dbSingleFrame, Except.isOk, Except.toBool]
  · rw [maxCenteredNorm, centeredCenters_dbSingleFrame]
    have : normE ![0, 0, 0] = 0 := by
      simp [normE]
    simp [this, List.max?_cons']

lemma list_max?_le_of_mem {α : Type} [LinearOrder α] {l : List α} {M b : α}
    (hM : l.max? = some M) (hb : b ∈ l) : b ≤ M := by
  have anti : Std.Antisymm (fun x y : α => x ≤ y) :=
    ⟨fun h h2 => le_antisymm h h2⟩
  exact ((@List.max?_eq_some_iff α M _ _ anti (fun _ => le_refl _)
    (fun a b => max_choice a b) (fun _ _ _ => max_le_iff) l).mp hM).2 b hb

lemma foldl_min_map_mono {f : ℝ → ℝ} (hf : Monotone f) :
    ∀ (l : List ℝ) (a : ℝ), (l.map f).foldl min (f a) = f (l.foldl min a)
  | [], _ => rfl
  | b :: bs, a => by
    rw [List.map_cons, List.foldl_cons, List.foldl_cons, ← hf.map_min,
      foldl_min_map_mono hf bs (min a b)]

lemma foldl_max_map_mono {f : ℝ → ℝ} (hf : Monotone f) :
    ∀ (l : List ℝ) (a : ℝ), (l.map f).foldl max (f a) = f (l.foldl max a)
  | [], _ => rfl
  | b :: bs, a => by
    rw [List.map_cons, List.foldl_cons, List.foldl_cons, ← hf.map_max,
      foldl_max_map_mono hf bs (max a b)]

lemma min?_map_mono {f : ℝ → ℝ} (hf : Monotone f) (l : List ℝ) :
    (l.map f).min? = l.min?.map f := by
  cases l with
  | nil => rfl
  | cons a as =>
    rw [List.map_cons, List.min?_cons', List.min?_cons', Option.map_some',
      foldl_min_map_mono hf]

lemma max?_map_mono {f : ℝ → ℝ} (hf : Monotone f) (l : List ℝ) :
    (l.map f).max? = l.max?.map f := by
  cases l with
  | nil => rfl
  | cons a as =>
    rw [List.map_cons, List.max?_cons', List.max?_cons', Option.map_some',
      foldl_max_map_mono hf]

lemma exists_min?_of_ne_nil {l : List ℝ} (h : l ≠ []) :
    ∃ a, l.min? = some a := by
  cases l with
  | nil => exact absurd rfl h
  | cons b bs => exact ⟨_, List.min?_cons'⟩

lemma exists_max?_of_ne_nil {l : List ℝ} (h : l ≠ []) :
    ∃ a, l.max? = some a := by
  cases l with
  | nil => exact absurd rfl h
  | cons b bs => exact ⟨_, List.max?_cons'⟩

lemma centerOf_setCenter (p : Matrix (Fin 4) (Fin 4) ℝ) (c : Fin 3 → ℝ) :
    centerOf (setCenter p c) = c := by
  funext i
  have hi : ((i.castSucc : Fin 4) : ℕ) < 3 := by simp
  rw [centerOf, setCenter, Matrix.of_apply, dif_pos ⟨rfl, hi⟩]
  congr 1

lemma centersOf_zipWith (fs : List Frame) (cs : List (Fin 3 → ℝ))
    (h : fs.length = cs.length) :
    (List.zipWith (fun f c => { f with pose := setCenter f.pose c }) fs
      cs).map (fun f => centerOf f.pose) = cs := by
  induction fs generalizing cs with
  | nil => cases cs with
    | nil => rfl
    | cons c cs => simp at h
  | cons f fs ih =>
    cases cs with
    | nil => simp at h
    | cons c cs => simp [centerOf_setCenter, ih _ (by simpa using h)]

lemma length_newCenters (db : NuwaDB) (pz : Bool) (s : ℝ) :
    (newCenters db pz s).length = db.frames.length := by
  simp [newCenters, centeredCenters, centersOf]

lemma normE_smul (k : ℝ) (hk : 0 ≤ k) (c : Fin 3 → ℝ) :
    normE (fun i => k * c i) = k * normE c := by
  rw [normE, normE,
    show (k * c 0) ^ 2 + (k * c 1) ^ 2 + (k * c 2) ^ 2 =
      k ^ 2 * (c 0 ^ 2 + c 1 ^ 2 + c 2 ^ 2) from by ring,
    Real.sqrt_mul (sq_nonneg k), Real.sqrt_sq hk]

lemma normE_pos_of_ne_zero {c : Fin 3 → ℝ} (hc : c ≠ fun _ => 0) :
    0 < normE c := by
  rw [normE]
  apply Real.sqrt_pos.mpr
  have hnn : (0:ℝ) ≤ c 0 ^ 2 + c 1 ^ 2 + c 2 ^ 2 := by positivity
  rcases hnn.lt_or_eq with h | h
  · exact h
  · exfalso
    have h0 : c 0 = 0 := by
      nlinarith [sq_nonneg (c 0), sq_nonneg (c 1), sq_nonneg (c 2)]
    have h1 : c 1 = 0 := by
      nlinarith [sq_nonneg (c 0), sq_nonneg (c 1), sq_nonneg (c 2)]
    have h2 : c 2 = 0 := by
      nlinarith [sq_nonneg (c 0), sq_nonneg (c 1), sq_nonneg (c 2)]
    apply hc
    funext j
    fin_cases j <;> assumption

lemma maxCenteredNorm_pos (db : NuwaDB) (pz : Bool) {f1 f2 : Frame}
    (h1 : f1 ∈ db.frames) (h2 : f2 ∈ db.frames)
    (hne : centerOf f1.pose ≠ centerOf f2.pose) :
    0 < maxCenteredNorm db pz := by
  have hne0 :
      (fun i => centerOf f1.pose i - offsetOf db pz i) ≠ (fun _ => 0) ∨
      (fun i => centerOf f2.pose i - offsetOf db pz i) ≠ (fun _ => 0) := by
    by_contra hcon
    push_neg at hcon
    obtain ⟨e1, e2⟩ := hcon
    apply hne
    funext i
    have g1 := congrFun e1 i
    have g2 := congrFun e2 i
    simp only at g1 g2
    linarith
  suffices hgen : ∀ g ∈ db.frames,
      (fun i => centerOf g.pose i - offsetOf db pz i) ≠ (fun _ => 0) →
      0 < maxCenteredNorm db pz by
    obtain hx | hx := hne0
    exacts [hgen f1 h1 hx, hgen f2 h2 hx]
  intro g hg hx
  have hc : (fun i => centerOf g.pose i - offsetOf db pz i) ∈
      centeredCenters db pz := by
    rw [centeredCenters]
    exact List.mem_map_of_mem _ (by
      rw [centersOf]; exact List.mem_map_of_mem _ hg)
  have hmem : normE (fun i => centerOf g.pose i - offsetOf db pz i) ∈
      (centeredCenters db pz).map normE := List.mem_map_of_mem _ hc
  obtain ⟨M, hM⟩ := exists_max?_of_ne_nil (List.ne_nil_of_mem hmem)
  have heq : maxCenteredNorm db pz = M := by
    rw [maxCenteredNorm, hM]; rfl
  rw [heq]
  exact lt_of_lt_of_le (normE_pos_of_ne_zero hx)
    (list_max?_le_of_mem hM hmem)

lemma offsetOf_xy (db : NuwaDB) (pz : Bool) :
    offsetOf db pz 0 =
      ((compList db 0).min?.getD 0 + (compList db 0).max?.getD 0) / 2 ∧
    offsetOf db pz 1 =
      ((compList db 1).min?.getD 0 + (compList db 1).max?.getD 0) / 2 := by
  cases pz <;> constructor <;> simp [offsetOf]

lemma normalize_cameras_eq_ok (db : NuwaDB) (pz : Bool) (s : ℝ)
    (r0 : Reconstruction) (hr0 : db.colmap_reconstruction = some r0)
    (hfne : db.frames ≠ []) :
    normalize_cameras db pz s = .ok { db with
      frames := List.zipWith
        (fun f c => { f with pose := setCenter f.pose c })
        db.frames (newCenters db pz s),
      colmap_reconstruction := some (world_scale
        (world_translate r0 (fun i => -(offsetOf db pz i)))
        (scaleOf db pz s)) } := by
  have hempty : db.frames.isEmpty = false := by
    cases hf : db.frames with
    | nil => exact absurd hf hfne
    | cons a l => rfl
  rw [normalize_cameras, hempty, hr0]
  simp

/-- C2 (amended): after `normalize_cameras` with scale factor `s > 0`
on a dataset whose camera centers do not all coincide (and with a
sparse reconstruction attached, which db.py line 213 requires), the
maximum Euclidean norm over the updated camera centers equals exactly
`s`, and the midrange — half the sum of the minimum and the maximum —
of the x coordinates and of the y coordinates of the updated centers
is 0.  (The centroid/mean is in general nonzero: the code centers the
componentwise midrange, not the mean — see the counterexample.) -/
theorem normalize_cameras_scale_and_midrange (db : NuwaDB) (pz : Bool)
    (s : ℝ) (hs : 0 < s) (hrec : db.colmap_reconstruction ≠ none)
    (f1 f2 : Frame) (h1 : f1 ∈ db.frames) (h2 : f2 ∈ db.frames)
    (hne : centerOf f1.pose ≠ centerOf f2.pose) :
    ∃ db', normalize_cameras db pz s = .ok db' ∧
      ((centersOf db').map normE).max? = some s ∧
      (compList db' 0).min?.getD 0 + (compList db' 0).max?.getD 0 = 0 ∧
      (compList db' 1).min?.getD 0 + (compList db' 1).max?.getD 0 = 0 := by
  obtain ⟨r0, hr0⟩ := Option.ne_none_iff_exists'.mp hrec
  have hfne : db.frames ≠ [] := List.ne_nil_of_mem h1
  have hok := normalize_cameras_eq_ok db pz s r0 hr0 hfne
  have hlen : db.frames.length = (newCenters db pz s).length :=
    (length_newCenters db pz s).symm
  have hcent : centersOf { db with
      frames := List.zipWith
        (fun f c => { f with pose := setCenter f.pose c })
        db.frames (newCenters db pz s),
      colmap_reconstruction := some (world_scale
        (world_translate r0 (fun i => -(offsetOf db pz i)))
        (scaleOf db pz s)) } = newCenters db pz s := by
    rw [centersOf]
    exact centersOf_zipWith _ _ hlen
  have hMpos : 0 < maxCenteredNorm db pz :=
    maxCenteredNorm_pos db pz h1 h2 hne
  have hkpos : 0 < scaleOf db pz s := div_pos hs hMpos
  have hmono : Monotone (fun x : ℝ => scaleOf db pz s * x) :=
    monotone_mul_left_of_nonneg hkpos.le
  have hmidr : ∀ i : Fin 3,
      offsetOf db pz i =
        ((compList db i).min?.getD 0 + (compList db i).max?.getD 0) / 2 →
      (compList { db with
        frames := List.zipWith
          (fun f c => { f with pose := setCenter f.pose c })
          db.frames (newCenters db pz s),
        colmap_reconstruction := some (world_scale
          (world_translate r0 (fun i => -(offsetOf db pz i)))
          (scaleOf db pz s)) } i).min?.getD 0 +
      (compList { db with
        frames := List.zipWith
          (fun f c => { f with pose := setCenter f.pose c })
          db.frames (newCenters db pz s),
        colmap_reconstruction := some (world_scale
          (world_translate r0 (fun i => -(offsetOf db pz i)))
          (scaleOf db pz s)) } i).max?.getD 0 = 0 := by
    intro i hoi
    have hcompi : compList { db with
        frames := List.zipWith
          (fun f c => { f with pose := setCenter f.pose c })
          db.frames (newCenters db pz s),
        colmap_reconstruction := some (world_scale
          (world_translate r0 (fun i => -(offsetOf db pz i)))
          (scaleOf db pz s)) } i =
        (compList db i).map
          (fun x => scaleOf db pz s * (x - offsetOf db pz i)) := by
      rw [compList, hcent, newCenters, centeredCenters, List.map_map,
        List.map_map, compList, List.map_map]
      exact List.map_congr_left (fun c _ => rfl)
    have hlne : compList db i ≠ [] := by
      rw [compList, centersOf, List.map_map]
      simpa using hfne
    obtain ⟨a, ha⟩ := exists_min?_of_ne_nil hlne
    obtain ⟨b, hb⟩ := exists_max?_of_ne_nil hlne
    have hmono2 : Monotone
        (fun x : ℝ => scaleOf db pz s * (x - offsetOf db pz i)) := by
      intro x y hxy
      exact mul_le_mul_of_nonneg_left
        (sub_le_sub_right hxy (offsetOf db pz i)) hkpos.le
    rw [hcompi, min?_map_mono hmono2, max?_map_mono hmono2, ha, hb]
    simp only [Option.map_some', Option.getD_some]
    rw [ha, hb] at hoi
    simp only [Option.getD_some] at hoi
    rw [hoi]
    ring
  refine ⟨_, hok, ?_, ?_, ?_⟩
  · rw [hcent]
    have hnorms : (newCenters db pz s).map normE =
        ((centeredCenters db pz).map normE).map
          (fun x => scaleOf db pz s * x) := by
      rw [newCenters, List.map_map, List.map_map]
      refine List.map_congr_left (fun c _ => ?_)
      simpa [Function.comp] using normE_smul (scaleOf db pz s) hkpos.le c
    have hcne : (centeredCenters db pz).map normE ≠ [] := by
      rw [centeredCenters, centersOf, List.map_map, List.map_map]
      simpa using hfne
    obtain ⟨M0, hM0⟩ := exists_max?_of_ne_nil hcne
    have hMM0 : maxCenteredNorm db pz = M0 := by
      rw [maxCenteredNorm, hM0]
      rfl
    rw [hnorms, max?_map_mono hmono, hM0, Option.map_some']
    have : scaleOf db pz s * M0 = s := by
      rw [← hMM0, scaleOf]
      exact div_mul_cancel₀ s hMpos.ne'
    rw [this]
  · exact hmidr 0 (offsetOf_xy db pz).1
  · exact hmidr 1 (offsetOf_xy db pz).2

/-- Spec-side notion for C2: the centroid (mean) of the camera
centers, one coordinate at a time. -/
noncomputable def centroid (db : NuwaDB) (i : Fin 3) : ℝ :=
  (compList db i).sum / (db.frames.length : ℝ)

/-- Concrete dataset for C2: three cameras at x = 0, 0, 10 (y = z = 0),
reconstruction attached. -/
def dbThree : NuwaDB :=
  ⟨"test", [frameAt 0 0 0 pinholeCam "img0.png",
            frameAt 0 0 0 pinholeCam "img1.png",
            frameAt 10 0 0 pinholeCam "img2.png"], some ⟨[]⟩⟩

lemma centersOf_dbThree :
    centersOf dbThree = [![0, 0, 0], ![0, 0, 0], ![10, 0, 0]] := by
  simp [centersOf, dbThree, frameAt, centerOf_poseWithCenter]

lemma compList_dbThree_0 : compList dbThree 0 = [0, 0, 10] := by
  simp [compList, centersOf_dbThree]

lemma compList_dbThree_1 : compList dbThree 1 = [0, 0, 0] := by
  simp [compList, centersOf_dbThree]

lemma compList_dbThree_2 : compList dbThree 2 = [0, 0, 0] := by
  simp [compList, centersOf_dbThree]

lemma offsetOf_dbThree : offsetOf dbThree true = ![5, 0, 0] := by
  funext i
  fin_cases i <;>
    norm_num [offsetOf, compList_dbThree_0, compList_dbThree_1,
      compList_dbThree_2, List.min?_cons', List.max?_cons', min_def,
      max_def]

lemma centeredCenters_dbThree :
    centeredCenters dbThree true = [![-5, 0, 0], ![-5, 0, 0], ![5, 0, 0]] := by
  rw [centeredCenters, centersOf_dbThree]
  have e1 : (fun i => (![0, 0, 0] : Fin 3 → ℝ) i - offsetOf dbThree true i)
      = ![-5, 0, 0] := by
    funext i
    rw [offsetOf_dbThree]
    fin_cases i <;> norm_num
  have e2 : (fun i => (![10, 0, 0] : Fin 3 → ℝ) i - offsetOf dbThree true i)
      = ![5, 0, 0] := by
    funext i
    rw [offsetOf_dbThree]
    fin_cases i <;> norm_num
  simp only [List.map_cons, List.map_nil, e1, e2]

lemma sqrt_twentyfive : Real.sqrt 25 = 5 := by
  rw [show (25 : ℝ) = 5 ^ 2 by norm_num]
  exact Real.sqrt_sq (by norm_num)

lemma maxCenteredNorm_dbThree : maxCenteredNorm dbThree true = 5 := by
  have hn1 : normE ![-5, 0, 0] = 5 := by
    rw [normE]
    norm_num [sqrt_twentyfive]
  have hn2 : normE ![5, 0, 0] = 5 := by
    rw [normE]
    norm_num [sqrt_twentyfive]
  rw [maxCenteredNorm, centeredCenters_dbThree]
  norm_num [hn1, hn2, List.max?_cons', max_def]

/-- Counterexample to C2 as stated: on three cameras with x
coordinates 0, 0, 10 and `scale_factor = 2`, normalization succeeds but
the centroid (mean) of the updated camera centers has x component
-2/3 ≠ 0.  The code zeroes the componentwise midrange
`(min + max) / 2`, not the centroid. -/
theorem normalize_cameras_centroid_not_zero :
    (normalize_cameras dbThree true 2).map (fun d => centroid d 0) =
      .ok (-(2/3)) ∧ (-(2/3) : ℝ) ≠ 0 := by
  refine ⟨?_, by norm_num⟩
  have hok := normalize_cameras_eq_ok dbThree true 2 ⟨[]⟩ rfl
    (by simp [dbThree])
  rw [hok]
  simp only [Except.map]
  congr 1
  have hlen : dbThree.frames.length = (newCenters dbThree true 2).length :=
    (length_newCenters dbThree true 2).symm
  have hcent : centersOf { dbThree with
      frames := List.zipWith
        (fun f c => { f with pose := setCenter f.pose c })
        dbThree.frames (newCenters dbThree true 2),
      colmap_reconstruction := some (world_scale
        (world_translate ⟨[]⟩ (fun i => -(offsetOf dbThree true i)))
        (scaleOf dbThree true 2)) } = newCenters dbThree true 2 := by
    rw [centersOf]
    exact centersOf_zipWith _ _ hlen
  have hscale : scaleOf dbThree true 2 = 2/5 := by
    rw [scaleOf, maxCenteredNorm_dbThree]
  have hnew : newCenters dbThree true 2 =
      [![-2, 0, 0], ![-2, 0, 0], ![2, 0, 0]] := by
    rw [newCenters, centeredCenters_dbThree]
    have e1 : (fun i => scaleOf dbThree true 2 * (![-5, 0, 0] : Fin 3 → ℝ) i)
        = ![-2, 0, 0] := by
      funext i
      rw [hscale]
      fin_cases i <;> norm_num
    have e2 : (fun i => scaleOf dbThree true 2 * (![5, 0, 0] : Fin 3 → ℝ) i)
        = ![2, 0, 0] := by
      funext i
      rw [hscale]
      fin_cases i <;> norm_num
    simp only [List.map_cons, List.map_nil, e1, e2]
  rw [centroid, compList, hcent, hnew]
  norm_num [List.length_zipWith, hnew, dbThree, min_self]

/-- Witness for C2 (amended) on the three-camera dataset `dbThree`
(x coordinates 0, 0, 10) with `scale_factor = 2`. -/
theorem normalize_cameras_scale_and_midrange_witness :
    ((0 : ℝ) < 2 ∧ dbThree.colmap_reconstruction ≠ none ∧
      frameAt 0 0 0 pinholeCam "img0.png" ∈ dbThree.frames ∧
      frameAt 10 0 0 pinholeCam "img2.png" ∈ dbThree.frames ∧
      centerOf (frameAt 0 0 0 pinholeCam "img0.png").pose ≠
        centerOf (frameAt 10 0 0 pinholeCam "img2.png").pose) ∧
    ∃ db', normalize_cameras dbThree true 2 = .ok db' ∧
      ((centersOf db').map normE).max? = some 2 ∧
      (compList db' 0).min?.getD 0 + (compList db' 0).max?.getD 0 = 0 ∧
      (compList db' 1).min?.getD 0 + (compList db' 1).max?.getD 0 = 0 := by
  have hne : centerOf (frameAt 0 0 0 pinholeCam "img0.png").pose ≠
      centerOf (frameAt 10 0 0 pinholeCam "img2.png").pose := by
    intro h
    have h0 := congrFun h 0
    simp [frameAt, centerOf_poseWithCenter] at h0
  refine ⟨⟨by norm_num, by simp [dbThree], by simp [dbThree],
    by simp [dbThree], hne⟩, ?_⟩
  exact normalize_cameras_scale_and_midrange dbThree true 2 (by norm_num)
    (by simp [dbThree]) _ _ (by simp [dbThree]) (by simp [dbThree]) hne

/-! ## db.py, `calculate_object_mask`, camera-adjustment stage
(lines 165-189).  The scene-carving and crop collaborators
(`nuwa.utils.seg_utils.scene_carving` / `crop_images`) are external
oracles (spec §4.4): they are parameters here.  Images are abstracted
to the data the stage reads from them (their pixel shape). -/

/-- `camera.intrinsic_matrix`.  Modelled from the spec: the 3×3
intrinsics stack of spec §4.4 step 2, built from fx, fy, cx, cy. -/
def intrinsic_matrix (c : Camera) : Matrix (Fin 3) (Fin 3) ℝ :=
  !![c.fx, 0, c.cx;
     0, c.fy, c.cy;
     0, 0, 1]

/-- Python `f"{i:06d}"`: zero-pad a frame index to six digits. -/
def zeroPad6 (n : ℕ) : String :=
  let s := toString n
  String.mk (List.replicate (6 - s.length) '0') ++ s

/-- The output image filename `f"{i:06d}.png"` of db.py line 183. -/
def frameImageName (i : ℕ) : String := zeroPad6 i ++ ".png"

/-- db.py lines 180-189: the per-frame update loop.  The pinhole
`assert` sits inside the loop, before that frame's writes, so a
non-pinhole frame aborts the loop after all earlier frames have
already been rewritten (pose, image path, w/h, fx/fy/cx/cy).  The
returned pair carries the frame list as left behind by the loop and
the raised exception, if any. -/
def updateLoop (dir : String) (poses : List (Matrix (Fin 4) (Fin 4) ℝ))
    (ks : List (Matrix (Fin 3) (Fin 3) ℝ)) (w h : ℕ) :
    ℕ → List Frame → List Frame × Option NuwaError
  | _, [] => ([], none)
  | i, f :: fs =>
    if f.camera.model = "PINHOLE" then
      match poses[i]?, ks[i]? with
      | some p, some k =>
        let r := updateLoop dir poses ks w h (i + 1) fs
        ({ f with
            pose := p
            image_path := dir ++ "/" ++ frameImageName i
            camera := { f.camera with
              w := w
              h := h
              fx := k 0 0
              fy := k 1 1
              cx := k 0 2
              cy := k 1 2 } }
          :: r.1, r.2)
      | _, _ => (f :: fs, some .indexError)
    else (f :: fs, some .assertionError)

/-- db.py lines 165-189, the `adjust_cameras` stage: normalize the
cameras (`positive_z=True, scale_factor=1.0`), stack masks /
intrinsics / poses, call the carving oracle, crop via the crop oracle
(whose result order is `images, ks, masks`), read `h, w` from
`images[0].shape[:2]`, then run the per-frame update loop.  The
resulting pair is the dataset as left behind (possibly partially
mutated) plus the raised exception, if any. -/
noncomputable def adjustCamerasStage {Img Mask : Type}
    (scene_carving : List Mask → List (Matrix (Fin 3) (Fin 3) ℝ) →
      List (Matrix (Fin 4) (Fin 4) ℝ) → List (Matrix (Fin 4) (Fin 4) ℝ))
    (crop_images : List Img → List Mask →
      List (Matrix (Fin 3) (Fin 3) ℝ) →
      List Img × List (Matrix (Fin 3) (Fin 3) ℝ) × List Mask)
    (shape : Img → ℕ × ℕ) (masked_image_save_dir : String)
    (images : List Img) (masks : List Mask) (db : NuwaDB) :
    NuwaDB × Option NuwaError :=
  match normalize_cameras db true 1 with
  | .error e => (db, some e)
  | .ok db1 =>
    let ks := db1.frames.map (fun f => intrinsic_matrix f.camera)
    let camera_poses :=
      scene_carving masks ks (db1.frames.map (fun f => f.pose))
    let cr := crop_images images masks ks
    match cr.1[0]? with
    | none => (db1, some .indexError)
    | some img0 =>
      let r := updateLoop masked_image_save_dir camera_poses cr.2.1
        (shape img0).2 (shape img0).1 0 db1.frames
      ({ db1 with frames := r.1 }, r.2)

/-- A non-pinhole camera record. -/
def opencvCam : Camera := ⟨"OPENCV", 4, 4, 1, 1, 2, 2⟩

/-- Concrete dataset for C4: frame 0 pinhole, frame 1 non-pinhole,
reconstruction attached (so that normalization succeeds). -/
def dbMixed : NuwaDB :=
  ⟨"test", [frameAt 0 0 0 pinholeCam "img0.png",
            frameAt 10 0 0 opencvCam "img1.png"], some ⟨[]⟩⟩

/-- C4 (code bug): invoked on a dataset whose second frame is not
pinhole, the camera-adjustment stage does raise the `assert` failure,
but only after frame 0 has already been rewritten: afterwards frame 0's
`image_path` is the new `"out/000000.png"` while before the stage it
was `"img0.png"` — the stage is not all-or-nothing (and
`normalize_cameras` has already rewritten every pose). -/
theorem adjust_cameras_partial_mutation :
    (let res := adjustCamerasStage (fun _ _ poses => poses)
        (fun imgs _ ks => (imgs, ks, ([] : List Unit)))
        (fun s : ℕ × ℕ => s) "out" [(4, 4), (4, 4)] [(), ()] dbMixed
     res.2 = some NuwaError.assertionError ∧
     res.1.frames.map (fun f => f.image_path) =
       ["out/000000.png", "img1.png"]) ∧
    dbMixed.frames.map (fun f => f.image_path) =
      ["img0.png", "img1.png"] := by
  refine ⟨⟨?_, ?_⟩, by decide⟩ <;> decide
